import Mathlib

/-!
Verification of the PCX decoder (`src/pcx_reader.py`).

The Python code is shallowly embedded: the file body is a `List Nat` of
byte values, the while-loops of the RLE decoder are encoded with an
explicit fuel parameter (the cursor strictly increases each iteration, so
fuel `data.length` always suffices; fuel sufficiency is proved), and the
fallible image-assembly code returns `Except`.  Python `float`
arithmetic in the luma computation is idealised as exact rational
arithmetic.
-/

set_option maxRecDepth 16384

namespace PCX

/-- Python slice `l[:w]` where `w` may be a negative int: a nonnegative
bound takes that many elements, a negative bound drops `-w` elements from
the end. -/
def pySlice (w : Int) (l : List Nat) : List Nat :=
  if 0 ≤ w then l.take w.toNat else l.take ((l.length : Int) + w).toNat

/-- One call of `PCXReader._decode_rle_scanline`, fuel-encoded.
Mirrors the Python loop body: read `data[pos]`; a byte with both top bits
set is a run header whose low six bits give the count and whose following
byte (when present) is the repeated value, appended `count` times; any
other byte is appended literally.  The loop stops when `bytes_per_line`
bytes have been produced or the cursor reaches end of data. -/
def decodeRleAux (data : List Nat) (bpl : Nat) : Nat → Nat → List Nat → List Nat × Nat
  | 0, pos, acc => (acc, pos)
  | fuel + 1, pos, acc =>
    if acc.length < bpl ∧ pos < data.length then
      let b := data.getD pos 0
      if b &&& 0xC0 = 0xC0 then
        let cnt := b &&& 0x3F
        if pos + 1 < data.length then
          decodeRleAux data bpl fuel (pos + 2)
            (acc ++ List.replicate cnt (data.getD (pos + 1) 0))
        else
          decodeRleAux data bpl fuel (pos + 1) acc
      else
        decodeRleAux data bpl fuel (pos + 1) (acc ++ [b])
    else (acc, pos)

/-- `PCXReader._decode_rle_scanline(data, start_pos, bytes_per_line)`:
returns the decoded byte list and the new cursor position. -/
def decodeRleScanline (data : List Nat) (pos : Nat) (bpl : Nat) : List Nat × Nat :=
  decodeRleAux data bpl data.length pos []

/-- The inner scanline loop of `PCXReader._find_rle_end`, fuel-encoded.
Identical cursor arithmetic to `decodeRleAux` but only a count of decoded
bytes is tracked; note that on a run header the count is added even when
the value byte is missing (the Python `decoded += count` is outside the
`if pos < len(data)` guard). -/
def findRleScanAux (data : List Nat) (bpl : Nat) : Nat → Nat → Nat → Nat
  | 0, pos, _ => pos
  | fuel + 1, pos, decoded =>
    if decoded < bpl ∧ pos < data.length then
      let b := data.getD pos 0
      if b &&& 0xC0 = 0xC0 then
        let cnt := b &&& 0x3F
        if pos + 1 < data.length then
          findRleScanAux data bpl fuel (pos + 2) (decoded + cnt)
        else
          findRleScanAux data bpl fuel (pos + 1) (decoded + cnt)
      else
        findRleScanAux data bpl fuel (pos + 1) (decoded + 1)
    else pos

/-- One scanline step of the dry-run boundary search. -/
def findRleScan (data : List Nat) (pos : Nat) (bpl : Nat) : Nat :=
  findRleScanAux data bpl data.length pos 0


/-- Little-endian 16-bit field at offset `i`, as read by
`struct.unpack` in `PCXHeader.__init__`. -/
def u16le (data : List Nat) (i : Nat) : Nat :=
  data.getD i 0 + 256 * data.getD (i + 1) 0

/-- The parsed `PCXHeader` attribute set.  `width` and `height` are the
derived attributes computed in `__init__`; they are Python ints and may
be nonpositive, hence `Int`. -/
structure PCXHeader where
  manufacturer : Nat
  version : Nat
  encoding : Nat
  bitsPerPixel : Nat
  xmin : Nat
  ymin : Nat
  xmax : Nat
  ymax : Nat
  hdpi : Nat
  vdpi : Nat
  headerPalette : List (Nat × Nat × Nat)
  reserved : Nat
  numPlanes : Nat
  bytesPerLine : Nat
  paletteInfo : Nat
  hscreenSize : Nat
  vscreenSize : Nat
  width : Int
  height : Int
  deriving DecidableEq

/-- `range(height)` length used by the decoding loops: Python `range`
of a nonpositive int is empty. -/
def PCXHeader.heightNat (hdr : PCXHeader) : Nat :=
  hdr.height.toNat

/-- `range(width)` length used by the 3-plane assembly loop. -/
def PCXHeader.widthNat (hdr : PCXHeader) : Nat :=
  hdr.width.toNat

/-- Field extraction of `PCXHeader.__init__` on a buffer of at least 128
bytes (the caller passes `data[:128]`; the short-buffer check lives in
`loadPCX`). -/
def parseHeader (data : List Nat) : PCXHeader where
  manufacturer := data.getD 0 0
  version := data.getD 1 0
  encoding := data.getD 2 0
  bitsPerPixel := data.getD 3 0
  xmin := u16le data 4
  ymin := u16le data 6
  xmax := u16le data 8
  ymax := u16le data 10
  hdpi := u16le data 12
  vdpi := u16le data 14
  headerPalette :=
    (List.range 16).map fun i =>
      (data.getD (16 + 3 * i) 0, data.getD (16 + 3 * i + 1) 0, data.getD (16 + 3 * i + 2) 0)
  reserved := data.getD 64 0
  numPlanes := data.getD 65 0
  bytesPerLine := u16le data 66
  paletteInfo := u16le data 68
  hscreenSize := u16le data 70
  vscreenSize := u16le data 72
  width := (u16le data 8 : Int) - (u16le data 4 : Int) + 1
  height := (u16le data 10 : Int) - (u16le data 6 : Int) + 1

/-- The dry-run of `PCXReader._find_rle_end`: `height × num_planes`
scanline passes starting at offset 128, tracking only the cursor.  The
Python `except` clause is unreachable (all accesses are guarded), so the
result is always a position. -/
def findRleEnd (data : List Nat) (hdr : PCXHeader) : Nat :=
  (List.range hdr.heightNat).foldl
    (fun pos _ =>
      (List.range hdr.numPlanes).foldl
        (fun p _ => findRleScanAux data hdr.bytesPerLine data.length p 0) pos)
    128

/-- The 256-entry triple parse shared by the four palette strategies in
`PCXReader._extract_palette`: `palette_data[i*3 .. i*3+2]` for
`i < 256`, with `palette_data` starting at `base`. -/
def parsePalette (data : List Nat) (base : Nat) : List (Nat × Nat × Nat) :=
  (List.range 256).map fun i =>
    (data.getD (base + 3 * i) 0, data.getD (base + 3 * i + 1) 0, data.getD (base + 3 * i + 2) 0)

/-- `PCXReader._extract_palette`, with the Python early returns
flattened into an if-chain: (1) boundary with marker 12, (2) boundary
without marker, (3) trailing 768 bytes with marker at `len-769`,
(4) trailing 768 bytes without marker, (5) the 16-entry header palette
for `bits_per_pixel ≤ 4`, else no palette. -/
def extractPalette (data : List Nat) (hdr : PCXHeader) : Option (List (Nat × Nat × Nat)) :=
  let n := data.length
  if 5 ≤ hdr.version ∧ findRleEnd data hdr + 769 ≤ n ∧ data.getD (findRleEnd data hdr) 0 = 12 then
    some (parsePalette data (findRleEnd data hdr + 1))
  else if 5 ≤ hdr.version ∧ findRleEnd data hdr + 769 ≤ n ∧ findRleEnd data hdr + 768 ≤ n then
    some (parsePalette data (findRleEnd data hdr))
  else if (5 ≤ hdr.version ∧ 768 < n) ∧ 769 ≤ n ∧ data.getD (n - 769) 0 = 12 then
    some (parsePalette data (n - 768))
  else if (5 ≤ hdr.version ∧ 768 < n) ∧ 768 ≤ n then
    some (parsePalette data (n - 768))
  else if hdr.bitsPerPixel ≤ 4 then
    some hdr.headerPalette
  else
    none

/-- The luma table entry of `_decode_image`:
`int(0.299*r + 0.587*g + 0.114*b + 0.5)` then clamped to `[0,255]`,
idealising the Python float arithmetic as exact rationals (for
nonnegative `x`, `int(x)` is the floor, so the value is
`(299r + 587g + 114b + 500) / 1000` rounded toward minus infinity). -/
def lumaInt (r g b : Nat) : Int :=
  let y : Int := ((299 * r + 587 * g + 114 * b + 500 : Nat) : Int) / 1000
  if y < 0 then 0 else if 255 < y then 255 else y

/-- Luma of a palette entry as a byte value. -/
def lumaOfEntry (e : Nat × Nat × Nat) : Nat :=
  (lumaInt e.1 e.2.1 e.2.2).toNat

/-- The `grayscale_map` list built in the 1-plane, 8-bit, palette path of
`_decode_image`. -/
def grayscaleMap (palette : List (Nat × Nat × Nat)) : List Nat :=
  palette.map lumaOfEntry

/-- One output pixel of the indexed path:
`grayscale_map[idx] if idx < len(grayscale_map) else idx`, duplicated to
RGB by the final `convert` call. -/
def indexedPixel (palette : List (Nat × Nat × Nat)) (idx : Nat) : Nat × Nat × Nat :=
  let gmap := grayscaleMap palette
  let y := if idx < gmap.length then gmap.getD idx 0 else idx
  (y, y, y)


/-- The user-visible exceptions a load can raise: the two `ValueError`s
of header validation and the uncaught `IndexError` of pixel assembly. -/
inductive PCXError where
  | invalidHeader
  | notAPCXFile
  | indexError
  deriving DecidableEq

/-- Result of `_decode_image`: an explicit RGB pixel list for the three
modelled assembly branches, or the PIL fallback of the final `else`
branch (external library behaviour, not modelled further). -/
inductive DecodedImage where
  | pixels (px : List (Nat × Nat × Nat))
  | fallback
  deriving DecidableEq

/-- The inner plane loop of `_decode_image`: before each scanline the
cursor is compared with `end_pos` and the loop `break`s when past it;
each decoded line is trimmed with `line[:width]`. -/
def decodeRow (data : List Nat) (bpl : Nat) (endPos : Nat) (width : Int) :
    Nat → Nat → List (List Nat) × Nat
  | 0, pos => ([], pos)
  | np + 1, pos =>
    if endPos ≤ pos then ([], pos)
    else
      let r := decodeRleScanline data pos bpl
      let rest := decodeRow data bpl endPos width np r.2
      (pySlice width r.1 :: rest.1, rest.2)

/-- The outer scanline loop of `_decode_image`: one (possibly empty)
plane list is appended per row. -/
def decodeRows (data : List Nat) (bpl : Nat) (endPos : Nat) (width : Int) (np : Nat) :
    Nat → Nat → List (List (List Nat)) × Nat
  | 0, pos => ([], pos)
  | h + 1, pos =>
    let row := decodeRow data bpl endPos width np pos
    let rest := decodeRows data bpl endPos width np h row.2
    (row.1 :: rest.1, rest.2)

/-- One pixel of the 3-plane RGB assembly.  Python evaluates
`scanline[0]` for the bound check and then `scanline[1][x]`,
`scanline[2][x]`; each list access out of range raises `IndexError`; an
`x` at or past `len(scanline[0])` is skipped (`none`). -/
def rgbPixelAt (planes : List (List Nat)) (x : Nat) :
    Except PCXError (Option (Nat × Nat × Nat)) :=
  match planes with
  | [] => .error .indexError
  | p0 :: rest =>
    if x < p0.length then
      match rest with
      | [] => .error .indexError
      | p1 :: rest2 =>
        if x < p1.length then
          match rest2 with
          | [] => .error .indexError
          | p2 :: _ =>
            if x < p2.length then .ok (some (p0.getD x 0, p1.getD x 0, p2.getD x 0))
            else .error .indexError
        else .error .indexError
    else .ok none

/-- One row of the 3-plane RGB assembly (`for x in range(width)`). -/
def assembleRowRGB (width : Nat) (planes : List (List Nat)) :
    Except PCXError (List (Nat × Nat × Nat)) :=
  (List.range width).foldlM
    (fun acc x =>
      (rgbPixelAt planes x).map fun o =>
        match o with
        | some t => acc ++ [t]
        | none => acc)
    []

/-- One row of the 1-plane indexed path: `indices = scanline[0][:width]`
(raising `IndexError` when the row has no plane at all), each index
mapped through the grayscale table. -/
def assembleRowIndexed (palette : List (Nat × Nat × Nat)) (width : Int)
    (planes : List (List Nat)) : Except PCXError (List (Nat × Nat × Nat)) :=
  match planes with
  | [] => .error .indexError
  | p0 :: _ => .ok ((pySlice width p0).map (indexedPixel palette))

/-- One row of the 1-plane grayscale path: `scanline[0][:width]`, each
byte duplicated to RGB by the final `convert`. -/
def assembleRowGray (width : Int) (planes : List (List Nat)) :
    Except PCXError (List (Nat × Nat × Nat)) :=
  match planes with
  | [] => .error .indexError
  | p0 :: _ => .ok ((pySlice width p0).map fun v => (v, v, v))

/-- `PCXReader._decode_image`: the cursor starts at 128; when a palette
was extracted and the file has at least 769 bytes, image data is cut
short of the trailing palette block; dispatch on
`(num_planes, bits_per_pixel)` selects the assembly branch. -/
def decodeImage (data : List Nat) (hdr : PCXHeader)
    (palette : Option (List (Nat × Nat × Nat))) : Except PCXError DecodedImage :=
  let endPos := if palette.isSome ∧ 769 ≤ data.length then data.length - 769 else data.length
  let scanlines := (decodeRows data hdr.bytesPerLine endPos hdr.width hdr.numPlanes hdr.heightNat 128).1
  if hdr.numPlanes = 3 ∧ hdr.bitsPerPixel = 8 then
    (scanlines.foldlM (fun acc row => (assembleRowRGB hdr.widthNat row).map fun px => acc ++ px) []).map
      DecodedImage.pixels
  else if hdr.numPlanes = 1 ∧ hdr.bitsPerPixel = 8 then
    match palette with
    | some pal =>
      (scanlines.foldlM (fun acc row => (assembleRowIndexed pal hdr.width row).map fun px => acc ++ px) []).map
        DecodedImage.pixels
    | none =>
      (scanlines.foldlM (fun acc row => (assembleRowGray hdr.width row).map fun px => acc ++ px) []).map
        DecodedImage.pixels
  else
    .ok DecodedImage.fallback

/-- `PCXReader.__init__`: read all bytes, fail with `invalidHeader` when
fewer than 128 are available, parse the header, fail with `notAPCXFile`
unless the manufacturer byte is 10, then extract the palette and decode
the image. -/
def loadPCX (data : List Nat) :
    Except PCXError (PCXHeader × Option (List (Nat × Nat × Nat)) × DecodedImage) :=
  if data.length < 128 then .error .invalidHeader
  else
    let hdr := parseHeader data
    if hdr.manufacturer ≠ 10 then .error .notAPCXFile
    else
      let pal := extractPalette data hdr
      (decodeImage data hdr pal).map fun img => (hdr, pal, img)

/-- A syntactically valid but empty PCX file: manufacturer 10,
version 0, 8 bits per pixel, one plane, one byte per line, a 1×1 window,
and no image data at all after the 128-byte header. -/
def emptyBodyFile : List Nat :=
  [10, 0, 1, 8] ++ List.replicate 61 0 ++ [1] ++ [1, 0] ++ List.replicate 60 0


/-- The real decode pass, expressed as the specification describes it:
`height × num_planes` successive `_decode_rle_scanline` calls starting at
offset 128, keeping only the final cursor.  Compared against
`findRleEnd` for the refinement claim. -/
def rlePassEnd (data : List Nat) (hdr : PCXHeader) : Nat :=
  (List.range hdr.heightNat).foldl
    (fun pos _ =>
      (List.range hdr.numPlanes).foldl
        (fun p _ => (decodeRleScanline data p hdr.bytesPerLine).2) pos)
    128

/-- Guard under which the boundary strategies (1 and 2) of
`_extract_palette` fire: the nested Python conditions always reach a
`return` once `version ≥ 5` and 769 bytes remain past the computed RLE
end. -/
def boundaryApplies (data : List Nat) (hdr : PCXHeader) : Prop :=
  5 ≤ hdr.version ∧ findRleEnd data hdr + 769 ≤ data.length

/-- Guard under which the trailing strategies (3 and 4) of
`_extract_palette` fire: `version ≥ 5` and more than 768 bytes of file. -/
def trailingApplies (data : List Nat) (hdr : PCXHeader) : Prop :=
  5 ≤ hdr.version ∧ 768 < data.length

instance (data : List Nat) (hdr : PCXHeader) : Decidable (boundaryApplies data hdr) :=
  inferInstanceAs (Decidable (_ ∧ _))

instance (data : List Nat) (hdr : PCXHeader) : Decidable (trailingApplies data hdr) :=
  inferInstanceAs (Decidable (_ ∧ _))

/-- A version-5 file whose single literal body byte is followed by the
marker 12 and a 768-byte palette block of 1s at the computed stream
boundary, and a different 768-byte block of 2s at end of file. -/
def boundaryPaletteFile : List Nat :=
  [10, 5, 1, 8] ++ List.replicate 61 0 ++ [1] ++ [1, 0] ++ List.replicate 60 0
    ++ [7] ++ [12] ++ List.replicate 768 1 ++ List.replicate 768 2

/-- A version-0, 4-bits-per-pixel file with no room for any 256-color
palette: only the header-palette fallback can apply. -/
def lowDepthFile : List Nat :=
  [10, 0, 1, 4] ++ List.replicate 61 0 ++ [1] ++ [1, 0] ++ List.replicate 60 0

/-- A 128-byte header whose window is empty: `xmin = 1` but `xmax = 0`,
so the derived width is `0 - 1 + 1 = 0`. -/
def emptyWindowFile : List Nat :=
  [10, 5, 1, 8, 1, 0, 0, 0, 0, 0, 0, 0] ++ List.replicate 116 0


/-- The scanline decoder never moves its cursor backward. -/
lemma decodeRleAux_pos_mono (data : List Nat) (bpl : Nat) :
    ∀ fuel pos acc, pos ≤ (decodeRleAux data bpl fuel pos acc).2 := by
  intro fuel
  induction fuel with
  | zero => intro pos acc; simp [decodeRleAux]
  | succ f ih =>
    intro pos acc
    simp only [decodeRleAux]
    split_ifs with h1 h2 h3
    · exact le_trans (by omega) (ih (pos + 2) _)
    · exact le_trans (by omega) (ih (pos + 1) _)
    · exact le_trans (by omega) (ih (pos + 1) _)
    · simp

/-- Starting inside the buffer, the scanline decoder never moves its
cursor past end of data. -/
lemma decodeRleAux_pos_le (data : List Nat) (bpl : Nat) :
    ∀ fuel pos acc, pos ≤ data.length →
      (decodeRleAux data bpl fuel pos acc).2 ≤ data.length := by
  intro fuel
  induction fuel with
  | zero => intro pos acc h; simpa [decodeRleAux] using h
  | succ f ih =>
    intro pos acc h
    simp only [decodeRleAux]
    split_ifs with h1 h2 h3
    · exact ih (pos + 2) _ (by omega)
    · exact ih (pos + 1) _ (by omega)
    · exact ih (pos + 1) _ (by omega)
    · simpa using h

/-- The dry-run scanline counter never moves its cursor backward. -/
lemma findRleScanAux_pos_mono (data : List Nat) (bpl : Nat) :
    ∀ fuel pos decoded, pos ≤ findRleScanAux data bpl fuel pos decoded := by
  intro fuel
  induction fuel with
  | zero => intro pos decoded; simp [findRleScanAux]
  | succ f ih =>
    intro pos decoded
    simp only [findRleScanAux]
    split_ifs with h1 h2 h3
    · exact le_trans (by omega) (ih (pos + 2) _)
    · exact le_trans (by omega) (ih (pos + 1) _)
    · exact le_trans (by omega) (ih (pos + 1) _)
    · exact le_rfl

/-- Starting inside the buffer, the dry-run scanline counter never moves
its cursor past end of data. -/
lemma findRleScanAux_pos_le (data : List Nat) (bpl : Nat) :
    ∀ fuel pos decoded, pos ≤ data.length →
      findRleScanAux data bpl fuel pos decoded ≤ data.length := by
  intro fuel
  induction fuel with
  | zero => intro pos decoded h; simpa [findRleScanAux] using h
  | succ f ih =>
    intro pos decoded h
    simp only [findRleScanAux]
    split_ifs with h1 h2 h3
    · exact ih (pos + 2) _ (by omega)
    · exact ih (pos + 1) _ (by omega)
    · exact ih (pos + 1) _ (by omega)
    · exact h

/-- Any fuel of at least `data.length - pos` yields the same result: the
while loop of `_decode_rle_scanline` terminates, every iteration
advancing the cursor by at least one. -/
lemma decodeRleAux_fuel_congr (data : List Nat) (bpl : Nat) :
    ∀ f₁ f₂ pos acc, data.length ≤ f₁ + pos → data.length ≤ f₂ + pos →
      decodeRleAux data bpl f₁ pos acc = decodeRleAux data bpl f₂ pos acc := by
  intro f₁
  induction f₁ with
  | zero =>
    intro f₂ pos acc h1 h2
    cases f₂ with
    | zero => rfl
    | succ g =>
      simp only [decodeRleAux]
      rw [if_neg (by omega)]
  | succ f ih =>
    intro f₂ pos acc h1 h2
    cases f₂ with
    | zero =>
      simp only [decodeRleAux]
      rw [if_neg (by omega)]
    | succ g =>
      simp only [decodeRleAux]
      by_cases hg : acc.length < bpl ∧ pos < data.length
      · rw [if_pos hg, if_pos hg]
        by_cases hr : data.getD pos 0 &&& 0xC0 = 0xC0
        · rw [if_pos hr, if_pos hr]
          by_cases hv : pos + 1 < data.length
          · rw [if_pos hv, if_pos hv]
            exact ih g (pos + 2) _ (by omega) (by omega)
          · rw [if_neg hv, if_neg hv]
            exact ih g (pos + 1) _ (by omega) (by omega)
        · rw [if_neg hr, if_neg hr]
          exact ih g (pos + 1) _ (by omega) (by omega)
      · rw [if_neg hg, if_neg hg]

/-- Fuel congruence for the dry-run counter. -/
lemma findRleScanAux_fuel_congr (data : List Nat) (bpl : Nat) :
    ∀ f₁ f₂ pos decoded, data.length ≤ f₁ + pos → data.length ≤ f₂ + pos →
      findRleScanAux data bpl f₁ pos decoded = findRleScanAux data bpl f₂ pos decoded := by
  intro f₁
  induction f₁ with
  | zero =>
    intro f₂ pos decoded h1 h2
    cases f₂ with
    | zero => rfl
    | succ g =>
      simp only [findRleScanAux]
      rw [if_neg (by omega)]
  | succ f ih =>
    intro f₂ pos decoded h1 h2
    cases f₂ with
    | zero =>
      simp only [findRleScanAux]
      rw [if_neg (by omega)]
    | succ g =>
      simp only [findRleScanAux]
      by_cases hg : decoded < bpl ∧ pos < data.length
      · rw [if_pos hg, if_pos hg]
        by_cases hr : data.getD pos 0 &&& 0xC0 = 0xC0
        · rw [if_pos hr, if_pos hr]
          by_cases hv : pos + 1 < data.length
          · rw [if_pos hv, if_pos hv]
            exact ih g (pos + 2) _ (by omega) (by omega)
          · rw [if_neg hv, if_neg hv]
            exact ih g (pos + 1) _ (by omega) (by omega)
        · rw [if_neg hr, if_neg hr]
          exact ih g (pos + 1) _ (by omega) (by omega)
      · rw [if_neg hg, if_neg hg]

/-- Each loop iteration starts below `bpl` decoded bytes and appends at
most 63, so the output can overshoot `bytes_per_line` by at most 62. -/
lemma decodeRleAux_length_le (data : List Nat) (bpl : Nat) :
    ∀ fuel pos acc, acc.length ≤ bpl + 62 →
      (decodeRleAux data bpl fuel pos acc).1.length ≤ bpl + 62 := by
  intro fuel
  induction fuel with
  | zero => intro pos acc h; simpa [decodeRleAux] using h
  | succ f ih =>
    intro pos acc h
    simp only [decodeRleAux]
    split_ifs with h1 h2 h3
    · refine ih (pos + 2) _ ?_
      have hc : data.getD pos 0 &&& 0x3F ≤ 0x3F := Nat.and_le_right
      simp only [List.length_append, List.length_replicate]
      omega
    · exact ih (pos + 1) _ h
    · refine ih (pos + 1) _ ?_
      simp only [List.length_append, List.length_singleton]
      omega
    · simpa using h

/-- When the loop exits with the cursor strictly inside the data, it
exited because the output already reached `bytes_per_line`. -/
lemma decodeRleAux_length_ge (data : List Nat) (bpl : Nat) :
    ∀ fuel pos acc, data.length ≤ fuel + pos →
      (decodeRleAux data bpl fuel pos acc).2 < data.length →
      bpl ≤ (decodeRleAux data bpl fuel pos acc).1.length := by
  intro fuel
  induction fuel with
  | zero =>
    intro pos acc h hlt
    simp only [decodeRleAux] at hlt ⊢
    omega
  | succ f ih =>
    intro pos acc h hlt
    simp only [decodeRleAux] at hlt ⊢
    by_cases hg : acc.length < bpl ∧ pos < data.length
    · rw [if_pos hg] at hlt ⊢
      by_cases hr : data.getD pos 0 &&& 0xC0 = 0xC0
      · rw [if_pos hr] at hlt ⊢
        by_cases hv : pos + 1 < data.length
        · rw [if_pos hv] at hlt ⊢
          exact ih (pos + 2) _ (by omega) hlt
        · rw [if_neg hv] at hlt ⊢
          exact ih (pos + 1) _ (by omega) hlt
      · rw [if_neg hr] at hlt ⊢
        exact ih (pos + 1) _ (by omega) hlt
    · rw [if_neg hg] at hlt ⊢
      simp only at hlt ⊢
      omega

/-- The real decoder and the dry-run counter perform identical cursor
arithmetic: as long as the tracked count equals the number of
materialised bytes (or the cursor has already hit end of data, where the
two counts may differ on a truncated run but both loops stop), the two
loops finish at the same position. -/
lemma decode_find_cursor_eq (data : List Nat) (bpl : Nat) :
    ∀ fuel pos acc decoded, decoded = acc.length ∨ data.length ≤ pos →
      (decodeRleAux data bpl fuel pos acc).2 = findRleScanAux data bpl fuel pos decoded := by
  intro fuel
  induction fuel with
  | zero => intro pos acc decoded _; simp [decodeRleAux, findRleScanAux]
  | succ f ih =>
    intro pos acc decoded h
    rcases h with heq | hlen
    · subst heq
      simp only [decodeRleAux, findRleScanAux]
      by_cases hg : acc.length < bpl ∧ pos < data.length
      · rw [if_pos hg, if_pos hg]
        by_cases hr : data.getD pos 0 &&& 0xC0 = 0xC0
        · rw [if_pos hr, if_pos hr]
          by_cases hv : pos + 1 < data.length
          · rw [if_pos hv, if_pos hv]
            exact ih (pos + 2) _ _ (Or.inl (by simp))
          · rw [if_neg hv, if_neg hv]
            exact ih (pos + 1) _ _ (Or.inr (by omega))
        · rw [if_neg hr, if_neg hr]
          exact ih (pos + 1) _ _ (Or.inl (by simp))
      · rw [if_neg hg, if_neg hg]
    · simp only [decodeRleAux, findRleScanAux]
      rw [if_neg (by omega), if_neg (by omega)]

/-- On a purely literal stream the decoder copies the next
`bytes_per_line` input bytes verbatim and advances the cursor by exactly
that amount. -/
lemma decodeRleAux_literals (data : List Nat) (bpl : Nat) :
    ∀ k fuel pos acc, k ≤ fuel → acc.length + k = bpl →
      (∀ i, i < k → pos + i < data.length ∧ ¬ data.getD (pos + i) 0 &&& 0xC0 = 0xC0) →
      decodeRleAux data bpl fuel pos acc = (acc ++ (data.drop pos).take k, pos + k) := by
  intro k
  induction k with
  | zero =>
    intro fuel pos acc _ hlen _
    cases fuel with
    | zero => simp [decodeRleAux]
    | succ f =>
      simp only [decodeRleAux]
      rw [if_neg (by omega)]
      simp
  | succ k ih =>
    intro fuel pos acc hfuel hlen hlit
    cases fuel with
    | zero => omega
    | succ f =>
      obtain ⟨hin, hnotrun⟩ := hlit 0 (by omega)
      simp only [Nat.add_zero] at hin hnotrun
      simp only [decodeRleAux]
      rw [if_pos ⟨by omega, hin⟩, if_neg hnotrun]
      rw [ih f (pos + 1) (acc ++ [data.getD pos 0]) (by omega)
        (by simp; omega)
        (by intro i hi
            have := hlit (i + 1) (by omega)
            constructor
            · have h1 := this.1; omega
            · have h2 := this.2
              have hx : pos + 1 + i = pos + (i + 1) := by omega
              rw [hx]; exact h2)]
      have hdrop : (data.drop pos).take (k + 1)
          = data.getD pos 0 :: (data.drop (pos + 1)).take k := by
        rw [List.drop_eq_getElem_cons hin, List.take_succ_cons,
          List.getD_eq_getElem data 0 hin]
      rw [hdrop]
      simp [List.append_assoc]
      omega

/-- A fold of a nondecreasing, length-bounded cursor step is itself
nondecreasing and length-bounded. -/
lemma foldl_pos_bounds (n : Nat) (f : Nat → Nat)
    (hf : ∀ p, p ≤ f p ∧ (p ≤ n → f p ≤ n)) :
    ∀ (l : List Nat) (pos : Nat),
      pos ≤ l.foldl (fun p _ => f p) pos ∧ (pos ≤ n → l.foldl (fun p _ => f p) pos ≤ n) := by
  intro l
  induction l with
  | nil => intro pos; simp
  | cons a t ih =>
    intro pos
    simp only [List.foldl_cons]
    refine ⟨le_trans (hf pos).1 (ih (f pos)).1, fun hp => (ih (f pos)).2 ((hf pos).2 hp)⟩

/-- Every palette strategy other than the header fallback parses exactly
256 RGB triples. -/
lemma parsePalette_length (data : List Nat) (base : Nat) :
    (parsePalette data base).length = 256 := by
  simp [parsePalette]

/-- C2: the dry-run boundary computation `_find_rle_end` reaches exactly
the same final byte offset as `height × num_planes` successive
`_decode_rle_scanline` calls starting at offset 128 on the same bytes:
the two passes perform byte-identical cursor arithmetic. -/
theorem dryrun_cursor_eq_decode (data : List Nat) (hdr : PCXHeader) :
    findRleEnd data hdr = rlePassEnd data hdr := by
  unfold findRleEnd rlePassEnd
  have hstep : (fun (p : Nat) (_ : Nat) => findRleScanAux data hdr.bytesPerLine data.length p 0)
      = fun (p : Nat) (_ : Nat) => (decodeRleScanline data p hdr.bytesPerLine).2 := by
    funext p x
    exact (decode_find_cursor_eq data hdr.bytesPerLine data.length p [] 0 (Or.inl rfl)).symm
  rw [hstep]

/-- C7: a scanline whose stream consists only of literal bytes, with at
least `bytes_per_line` of input available, decodes to exactly those
bytes, length `bytes_per_line`, advancing the cursor by
`bytes_per_line`. -/
theorem literal_scanline_identity (data : List Nat) (pos bpl : Nat)
    (hlit : ∀ i, i < bpl → pos + i < data.length ∧ ¬ data.getD (pos + i) 0 &&& 0xC0 = 0xC0) :
    decodeRleScanline data pos bpl = ((data.drop pos).take bpl, pos + bpl)
    ∧ (decodeRleScanline data pos bpl).1.length = bpl := by
  have hb : bpl ≤ data.length := by
    cases bpl with
    | zero => omega
    | succ m =>
      have := (hlit m (by omega)).1
      omega
  have hmain := decodeRleAux_literals data bpl bpl data.length pos [] hb (by simp) hlit
  rw [decodeRleScanline, hmain]
  refine ⟨by simp, ?_⟩
  simp only [List.nil_append, List.length_take, List.length_drop]
  have : bpl ≤ data.length - pos := by
    cases bpl with
    | zero => omega
    | succ m =>
      have := (hlit m (by omega)).1
      omega
  omega

/-- C7 witness: a three-byte literal stream decoded with
`bytes_per_line = 2` returns the first two bytes unchanged. -/
theorem literal_scanline_identity_witness :
    decodeRleScanline [10, 20, 30] 0 2 = ((([10, 20, 30] : List Nat).drop 0).take 2, 0 + 2)
    ∧ (decodeRleScanline [10, 20, 30] 0 2).1.length = 2 :=
  literal_scanline_identity [10, 20, 30] 0 2 (by decide)

/-- C1 counterexample: with `bytes_per_line = 1` the stream
`[0xC3, 7]` (a run of count 3) produces three output bytes, not one:
runs are not clipped to the output budget. -/
theorem rle_clipping_cex :
    (decodeRleScanline [195, 7] 0 1).1 = [7, 7, 7]
    ∧ ¬ (decodeRleScanline [195, 7] 0 1).1.length ≤ 1 := by
  decide

/-- C1 as amended: a run byte with count `n` followed by a value byte
`v` contributes `n` copies of `v` in full, without clipping; a call
therefore produces at least `bytes_per_line` bytes whenever the input
does not run out, and at most `bytes_per_line + 62` bytes. -/
theorem rle_run_unclipped_bounds (data : List Nat) (pos bpl fuel : Nat) (acc : List Nat)
    (hacc : acc.length < bpl) (hpos : pos < data.length)
    (hrun : data.getD pos 0 &&& 0xC0 = 0xC0) (hval : pos + 1 < data.length) :
    (decodeRleScanline data pos bpl).1.length ≤ bpl + 62
    ∧ ((decodeRleScanline data pos bpl).2 < data.length →
        bpl ≤ (decodeRleScanline data pos bpl).1.length)
    ∧ decodeRleAux data bpl (fuel + 1) pos acc
      = decodeRleAux data bpl fuel (pos + 2)
          (acc ++ List.replicate (data.getD pos 0 &&& 0x3F) (data.getD (pos + 1) 0)) := by
  refine ⟨decodeRleAux_length_le data bpl data.length pos [] (by simp),
    fun h => decodeRleAux_length_ge data bpl data.length pos [] (by omega) h, ?_⟩
  simp only [decodeRleAux]
  rw [if_pos ⟨hacc, hpos⟩, if_pos hrun, if_pos hval]

/-- C1 witness: on `[0xC3, 7, 9]` with `bytes_per_line = 1` the run
expands fully to three bytes; the run step appends its three copies in
one go. -/
theorem rle_run_unclipped_bounds_witness :
    ([] : List Nat).length < 1 ∧ (0 : Nat) < ([195, 7, 9] : List Nat).length
    ∧ ([195, 7, 9] : List Nat).getD 0 0 &&& 0xC0 = 0xC0
    ∧ 0 + 1 < ([195, 7, 9] : List Nat).length
    ∧ ((decodeRleScanline [195, 7, 9] 0 1).1.length ≤ 1 + 62
      ∧ ((decodeRleScanline [195, 7, 9] 0 1).2 < ([195, 7, 9] : List Nat).length →
          1 ≤ (decodeRleScanline [195, 7, 9] 0 1).1.length)
      ∧ decodeRleAux [195, 7, 9] 1 (2 + 1) 0 []
        = decodeRleAux [195, 7, 9] 1 2 (0 + 2)
            ([] ++ List.replicate (([195, 7, 9] : List Nat).getD 0 0 &&& 0x3F)
              (([195, 7, 9] : List Nat).getD (0 + 1) 0))) :=
  ⟨by decide, by decide, by decide, by decide,
    rle_run_unclipped_bounds [195, 7, 9] 0 1 2 [] (by decide) (by decide) (by decide) (by decide)⟩

/-- C9: every RLE pass (the real scanline decode and the dry-run) is a
terminating loop — any fuel of at least `data.length` gives the same
result — whose cursor never moves backward and, started inside the
buffer, never passes end of file; the full dry-run stays between offset
128 and end of file.  A truncated stream simply stops the loop, the
bytes produced so far being returned. -/
theorem rle_cursor_safety (data : List Nat) (hdr : PCXHeader) (pos bpl fuel : Nat)
    (hpos : pos ≤ data.length) (hfuel : data.length ≤ fuel) :
    (pos ≤ (decodeRleScanline data pos bpl).2 ∧ (decodeRleScanline data pos bpl).2 ≤ data.length)
    ∧ (pos ≤ findRleScanAux data bpl data.length pos 0
        ∧ findRleScanAux data bpl data.length pos 0 ≤ data.length)
    ∧ decodeRleAux data bpl fuel pos [] = decodeRleScanline data pos bpl
    ∧ findRleScanAux data bpl fuel pos 0 = findRleScanAux data bpl data.length pos 0
    ∧ (128 ≤ data.length → 128 ≤ findRleEnd data hdr ∧ findRleEnd data hdr ≤ data.length) := by
  refine ⟨⟨decodeRleAux_pos_mono data bpl data.length pos [],
      decodeRleAux_pos_le data bpl data.length pos [] hpos⟩,
    ⟨findRleScanAux_pos_mono data bpl data.length pos 0,
      findRleScanAux_pos_le data bpl data.length pos 0 hpos⟩,
    decodeRleAux_fuel_congr data bpl fuel data.length pos [] (by omega) (by omega),
    findRleScanAux_fuel_congr data bpl fuel data.length pos 0 (by omega) (by omega),
    fun h128 => ?_⟩
  have hinner : ∀ p : Nat, p ≤ (List.range hdr.numPlanes).foldl
        (fun q _ => findRleScanAux data hdr.bytesPerLine data.length q 0) p
      ∧ (p ≤ data.length → (List.range hdr.numPlanes).foldl
        (fun q _ => findRleScanAux data hdr.bytesPerLine data.length q 0) p ≤ data.length) :=
    fun p => foldl_pos_bounds data.length
      (fun q => findRleScanAux data hdr.bytesPerLine data.length q 0)
      (fun q => ⟨findRleScanAux_pos_mono data hdr.bytesPerLine data.length q 0,
        fun hq => findRleScanAux_pos_le data hdr.bytesPerLine data.length q 0 hq⟩)
      (List.range hdr.numPlanes) p
  have houter := foldl_pos_bounds data.length
    (fun p => (List.range hdr.numPlanes).foldl
      (fun q _ => findRleScanAux data hdr.bytesPerLine data.length q 0) p)
    hinner (List.range hdr.heightNat) 128
  exact ⟨houter.1, houter.2 h128⟩

/-- C9 witness: instantiated on the 128-byte empty-body file. -/
theorem rle_cursor_safety_witness :
    ((0 : Nat) ≤ (decodeRleScanline emptyBodyFile 0 2).2
      ∧ (decodeRleScanline emptyBodyFile 0 2).2 ≤ emptyBodyFile.length)
    ∧ ((0 : Nat) ≤ findRleScanAux emptyBodyFile 2 emptyBodyFile.length 0 0
        ∧ findRleScanAux emptyBodyFile 2 emptyBodyFile.length 0 0 ≤ emptyBodyFile.length)
    ∧ decodeRleAux emptyBodyFile 2 200 0 [] = decodeRleScanline emptyBodyFile 0 2
    ∧ findRleScanAux emptyBodyFile 2 200 0 0 = findRleScanAux emptyBodyFile 2 emptyBodyFile.length 0 0
    ∧ (128 ≤ findRleEnd emptyBodyFile (parseHeader emptyBodyFile)
        ∧ findRleEnd emptyBodyFile (parseHeader emptyBodyFile) ≤ emptyBodyFile.length) := by
  have h := rle_cursor_safety emptyBodyFile (parseHeader emptyBodyFile) 0 2 200
    (by decide) (by decide)
  exact ⟨h.1, h.2.1, h.2.2.1, h.2.2.2.1, h.2.2.2.2 (by decide)⟩

/-- C6 counterexample: a full 128-byte header with `xmin = 1` and
`xmax = 0` parses successfully, yet the derived width is `0`, violating
`width ≥ 1` — the parser never validates the window bounds. -/
theorem header_width_ge_one_cex :
    emptyWindowFile.length = 128
    ∧ (parseHeader emptyWindowFile).width = 0
    ∧ ¬ 1 ≤ (parseHeader emptyWindowFile).width := by
  decide

/-- C6 as amended: every successfully parsed header satisfies
`width = xmax - xmin + 1` and `height = ymax - ymin + 1` as signed
values; `width ≥ 1` and `height ≥ 1` hold only under the additional
(unvalidated) conditions `xmin ≤ xmax` and `ymin ≤ ymax`. -/
theorem header_derived_size (data : List Nat) (_hlen : 128 ≤ data.length) :
    (parseHeader data).width
      = ((parseHeader data).xmax : Int) - ((parseHeader data).xmin : Int) + 1
    ∧ (parseHeader data).height
      = ((parseHeader data).ymax : Int) - ((parseHeader data).ymin : Int) + 1
    ∧ ((parseHeader data).xmin ≤ (parseHeader data).xmax → 1 ≤ (parseHeader data).width)
    ∧ ((parseHeader data).ymin ≤ (parseHeader data).ymax → 1 ≤ (parseHeader data).height) := by
  refine ⟨rfl, rfl, fun hx => ?_, fun hy => ?_⟩
  · simp only [parseHeader] at hx ⊢
    omega
  · simp only [parseHeader] at hy ⊢
    omega

/-- C6 witness: on the empty-body file the window is `0..0`, so both
derived dimensions are 1. -/
theorem header_derived_size_witness :
    128 ≤ emptyBodyFile.length
    ∧ (parseHeader emptyBodyFile).width
      = ((parseHeader emptyBodyFile).xmax : Int) - ((parseHeader emptyBodyFile).xmin : Int) + 1
    ∧ (parseHeader emptyBodyFile).xmin ≤ (parseHeader emptyBodyFile).xmax
    ∧ 1 ≤ (parseHeader emptyBodyFile).width
    ∧ 1 ≤ (parseHeader emptyBodyFile).height :=
  ⟨by decide, (header_derived_size emptyBodyFile (by decide)).1, by decide,
    (header_derived_size emptyBodyFile (by decide)).2.2.1 (by decide),
    (header_derived_size emptyBodyFile (by decide)).2.2.2 (by decide)⟩

/-- C10: in the indexed assembly path an index at or past the palette
length does not raise: the raw index itself becomes the grayscale level
of the output pixel. -/
theorem index_out_of_palette_raw (palette : List (Nat × Nat × Nat)) (idx : Nat)
    (h : palette.length ≤ idx) :
    indexedPixel palette idx = (idx, idx, idx) := by
  simp only [indexedPixel, grayscaleMap, List.length_map]
  rw [if_neg (by omega)]

/-- C10 witness: index 5 into a one-entry palette yields the gray pixel
`(5,5,5)`. -/
theorem index_out_of_palette_raw_witness :
    ([((255 : Nat), (0 : Nat), (0 : Nat))] : List (Nat × Nat × Nat)).length ≤ 5
    ∧ indexedPixel [(255, 0, 0)] 5 = (5, 5, 5) :=
  ⟨by decide, index_out_of_palette_raw [(255, 0, 0)] 5 (by decide)⟩

/-- C4 (code bug): the empty-body file is 128 bytes long with
manufacturer byte 10, so neither claimed fatal condition holds, yet the
load fails with an uncaught index error raised by the pixel-assembly
access `scanline[0]` on a row for which the truncated stream produced no
plane at all — a third fatal, user-visible failure. -/
theorem truncated_file_index_error :
    loadPCX emptyBodyFile = .error .indexError
    ∧ 128 ≤ emptyBodyFile.length
    ∧ emptyBodyFile.getD 0 0 = 10 :=
  ⟨by rfl, by decide, by decide⟩

/-- C8: the grayscale table entry computed by the indexed assembly path
equals `round(0.299r + 0.587g + 0.114b)` clamped to `[0,255]` (float
arithmetic idealised as exact rationals, `round` being round-half-up);
an in-range index resolves to the luma of its palette entry duplicated
into an RGB gray pixel; in particular palette entry `(255,0,0)` yields
`(76,76,76)`. -/
theorem luma_mapping (r g b : Nat) (hr : r ≤ 255) (hg : g ≤ 255) (hb : b ≤ 255)
    (pal : List (Nat × Nat × Nat)) (i : Nat) (hi : i < pal.length) :
    lumaInt r g b = min 255 (max 0 (round ((0.299 * r + 0.587 * g + 0.114 * b : ℚ))))
    ∧ indexedPixel pal i
      = (lumaOfEntry (pal.getD i (0, 0, 0)), lumaOfEntry (pal.getD i (0, 0, 0)),
          lumaOfEntry (pal.getD i (0, 0, 0)))
    ∧ indexedPixel [(255, 0, 0)] 0 = (76, 76, 76) := by
  refine ⟨?_, ?_, by decide⟩
  · have hq : (0.299 * r + 0.587 * g + 0.114 * b : ℚ) + 1 / 2
        = ((299 * r + 587 * g + 114 * b + 500 : ℤ) : ℚ) / ((1000 : ℕ) : ℚ) := by
      push_cast
      norm_num
      ring
    have hround : round ((0.299 * r + 0.587 * g + 0.114 * b : ℚ))
        = (299 * r + 587 * g + 114 * b + 500 : ℤ) / 1000 := by
      rw [round_eq, hq, Rat.floor_intCast_div_natCast]
      norm_num
    rw [hround]
    simp only [lumaInt]
    have hcast : ((299 * r + 587 * g + 114 * b + 500 : Nat) : Int)
        = (299 * r + 587 * g + 114 * b + 500 : ℤ) := by push_cast; ring
    rw [hcast]
    split_ifs <;> omega
  · simp only [indexedPixel, grayscaleMap, List.length_map]
    rw [if_pos hi]
    rw [List.getD_eq_getElem _ _ (by simpa using hi), List.getElem_map,
      List.getD_eq_getElem _ _ hi]

/-- C8 witness: instantiated at palette entry `(255,0,0)` and index 0. -/
theorem luma_mapping_witness :
    (255 : Nat) ≤ 255 ∧ (0 : Nat) ≤ 255
    ∧ (0 : Nat) < ([((255 : Nat), (0 : Nat), (0 : Nat))] : List (Nat × Nat × Nat)).length
    ∧ (lumaInt 255 0 0
        = min 255 (max 0 (round ((0.299 * (255 : Nat) + 0.587 * (0 : Nat) + 0.114 * (0 : Nat) : ℚ))))
      ∧ indexedPixel [(255, 0, 0)] 0
        = (lumaOfEntry (([((255 : Nat), (0 : Nat), (0 : Nat))] : List (Nat × Nat × Nat)).getD 0 (0, 0, 0)),
            lumaOfEntry (([((255 : Nat), (0 : Nat), (0 : Nat))] : List (Nat × Nat × Nat)).getD 0 (0, 0, 0)),
            lumaOfEntry (([((255 : Nat), (0 : Nat), (0 : Nat))] : List (Nat × Nat × Nat)).getD 0 (0, 0, 0)))
      ∧ indexedPixel [(255, 0, 0)] 0 = (76, 76, 76)) :=
  ⟨by decide, by decide, by decide,
    luma_mapping 255 0 0 (by decide) (by decide) (by decide) [(255, 0, 0)] 0 (by decide)⟩

/-- C3: for a version ≥ 5 file carrying the marker byte 12 at the
computed end-of-image-data boundary with 768 palette bytes after it,
palette extraction selects the triples read at the boundary, hence not
any different trailing block. -/
theorem boundary_palette_precedence (data : List Nat) (hdr : PCXHeader)
    (hv : 5 ≤ hdr.version)
    (hroom : findRleEnd data hdr + 769 ≤ data.length)
    (hmark : data.getD (findRleEnd data hdr) 0 = 12) :
    extractPalette data hdr = some (parsePalette data (findRleEnd data hdr + 1))
    ∧ (parsePalette data (findRleEnd data hdr + 1) ≠ parsePalette data (data.length - 768) →
        extractPalette data hdr ≠ some (parsePalette data (data.length - 768))) := by
  have hmain : extractPalette data hdr = some (parsePalette data (findRleEnd data hdr + 1)) := by
    simp only [extractPalette]
    rw [if_pos ⟨hv, hroom, hmark⟩]
  refine ⟨hmain, fun hne heq => ?_⟩
  rw [hmain] at heq
  exact hne (Option.some_injective _ heq)

/-- C3 witness: on `boundaryPaletteFile` the boundary block of 1s is
selected over the different trailing block of 2s. -/
theorem boundary_palette_precedence_witness :
    5 ≤ (parseHeader boundaryPaletteFile).version
    ∧ findRleEnd boundaryPaletteFile (parseHeader boundaryPaletteFile) + 769
        ≤ boundaryPaletteFile.length
    ∧ boundaryPaletteFile.getD (findRleEnd boundaryPaletteFile (parseHeader boundaryPaletteFile)) 0 = 12
    ∧ extractPalette boundaryPaletteFile (parseHeader boundaryPaletteFile)
        = some (parsePalette boundaryPaletteFile
            (findRleEnd boundaryPaletteFile (parseHeader boundaryPaletteFile) + 1))
    ∧ extractPalette boundaryPaletteFile (parseHeader boundaryPaletteFile)
        ≠ some (parsePalette boundaryPaletteFile (boundaryPaletteFile.length - 768)) := by
  have hne : parsePalette boundaryPaletteFile
        (findRleEnd boundaryPaletteFile (parseHeader boundaryPaletteFile) + 1)
      ≠ parsePalette boundaryPaletteFile (boundaryPaletteFile.length - 768) := by
    intro h
    exact absurd (congrArg (fun l => l.getD 0 ((0 : Nat), (0 : Nat), (0 : Nat))) h) (by decide)
  have h := boundary_palette_precedence boundaryPaletteFile (parseHeader boundaryPaletteFile)
    (by decide) (by decide) (by decide)
  exact ⟨by decide, by decide, by decide, h.1, h.2 hne⟩

/-- C5: the 16-entry header palette is returned exactly when no boundary
or trailing 256-color strategy fires and `bits_per_pixel ≤ 4`; when some
such strategy fires, a 256-entry palette is returned instead; when
nothing applies the result is `none`, not an error. -/
theorem header_palette_fallback (data : List Nat) (hdr : PCXHeader) :
    (¬ boundaryApplies data hdr ∧ ¬ trailingApplies data hdr →
      extractPalette data hdr
        = if hdr.bitsPerPixel ≤ 4 then some hdr.headerPalette else none)
    ∧ (boundaryApplies data hdr ∨ trailingApplies data hdr →
      ∃ p, extractPalette data hdr = some p ∧ p.length = 256)
    ∧ (parseHeader data).headerPalette.length = 16 := by
  refine ⟨?_, ?_, by simp [parseHeader]⟩
  · rintro ⟨hb, ht⟩
    simp only [extractPalette]
    rw [if_neg (fun h => hb ⟨h.1, h.2.1⟩), if_neg (fun h => hb ⟨h.1, h.2.1⟩),
      if_neg (fun h => ht h.1), if_neg (fun h => ht h.1)]
  · intro h
    simp only [extractPalette]
    by_cases h1 : 5 ≤ hdr.version ∧ findRleEnd data hdr + 769 ≤ data.length
        ∧ data.getD (findRleEnd data hdr) 0 = 12
    · rw [if_pos h1]
      exact ⟨_, rfl, parsePalette_length data _⟩
    · rw [if_neg h1]
      by_cases h2 : 5 ≤ hdr.version ∧ findRleEnd data hdr + 769 ≤ data.length
          ∧ findRleEnd data hdr + 768 ≤ data.length
      · rw [if_pos h2]
        exact ⟨_, rfl, parsePalette_length data _⟩
      · rw [if_neg h2]
        by_cases h3 : (5 ≤ hdr.version ∧ 768 < data.length)
            ∧ 769 ≤ data.length ∧ data.getD (data.length - 769) 0 = 12
        · rw [if_pos h3]
          exact ⟨_, rfl, parsePalette_length data _⟩
        · rw [if_neg h3]
          by_cases h4 : (5 ≤ hdr.version ∧ 768 < data.length) ∧ 768 ≤ data.length
          · rw [if_pos h4]
            exact ⟨_, rfl, parsePalette_length data _⟩
          · exfalso
            rcases h with hb | ht
            · obtain ⟨hv, hroom⟩ := hb
              by_cases hm : data.getD (findRleEnd data hdr) 0 = 12
              · exact h1 ⟨hv, hroom, hm⟩
              · exact h2 ⟨hv, hroom, by omega⟩
            · obtain ⟨hv, hlen⟩ := ht
              by_cases hm : data.getD (data.length - 769) 0 = 12
              · exact h3 ⟨⟨hv, hlen⟩, by omega, hm⟩
              · exact h4 ⟨⟨hv, hlen⟩, by omega⟩

/-- C5 witness: the low-depth file takes the header-palette fallback;
the boundary-palette file takes a 256-entry strategy. -/
theorem header_palette_fallback_witness :
    (¬ boundaryApplies lowDepthFile (parseHeader lowDepthFile)
      ∧ ¬ trailingApplies lowDepthFile (parseHeader lowDepthFile))
    ∧ extractPalette lowDepthFile (parseHeader lowDepthFile)
        = (if (parseHeader lowDepthFile).bitsPerPixel ≤ 4
            then some (parseHeader lowDepthFile).headerPalette else none)
    ∧ (boundaryApplies boundaryPaletteFile (parseHeader boundaryPaletteFile)
      ∨ trailingApplies boundaryPaletteFile (parseHeader boundaryPaletteFile))
    ∧ (∃ p, extractPalette boundaryPaletteFile (parseHeader boundaryPaletteFile) = some p
        ∧ p.length = 256)
    ∧ (parseHeader lowDepthFile).headerPalette.length = 16
    ∧ extractPalette emptyBodyFile (parseHeader emptyBodyFile) = none :=
  ⟨⟨by decide, by decide⟩,
    (header_palette_fallback lowDepthFile (parseHeader lowDepthFile)).1 ⟨by decide, by decide⟩,
    Or.inl (by decide),
    (header_palette_fallback boundaryPaletteFile (parseHeader boundaryPaletteFile)).2.1
      (Or.inl (by decide)),
    (header_palette_fallback lowDepthFile (parseHeader lowDepthFile)).2.2,
    by
      have h := (header_palette_fallback emptyBodyFile (parseHeader emptyBodyFile)).1
        ⟨by decide, by decide⟩
      rw [if_neg (by decide)] at h
      exact h⟩

end PCX
